import Mathlib

/-!
Verification of the retry-and-verification control loop of
`fetch.py` (class `dbGaPFileFetcher`), shallowly embedded in Lean.

Conventions of the embedding:
* the external `prefetch` process is opaque; its observable effect on the
  temporary working directory is an oracle `dirAfter : Nat → DirState`
  giving the directory state after the i-th invocation (1-based);
* Python exceptions are `Except`; machine integers are `Int`;
* `os.listdir` of the temporary directory is the list of entry names of a
  `DirState`; the external `tar` tool is an oracle `tarExit : String → Int`
  giving its exit status per archive.
-/

/-- A CSV file as seen by `csv.DictReader`: a header row and data rows. -/
structure CSVFile where
  header : List String
  rows : List (List String)
  deriving DecidableEq

/-- The dict that `csv.DictReader` builds for one data row: the header
fields zipped with the row values, padded (as `restval=None`, here the
empty string) so that every header field is a key. -/
def dictOfRow (header row : List String) : List (String × String) :=
  header.zip (row ++ List.replicate header.length "")

/-- `row[key]` on a `DictReader` row: raises `KeyError` (here `none`) exactly
when `key` is not among the header fields; otherwise the value of the last
binding of `key` (a Python dict built by zip keeps the last value). -/
def rowValue (header row : List String) (key : String) : Option String :=
  if key ∈ header then
    some ((((dictOfRow header row).reverse).lookup key).getD "")
  else
    none

/-- The `for row in cf` loop of `_read_manifest`: append the "File Name"
value of each row in order; the first row whose dict lacks the key raises
`KeyError`. -/
def readManifestRows (header : List String) :
    List (List String) → Except String (List String)
  | [] => Except.ok []
  | row :: rest =>
    match rowValue header row "File Name" with
    | none => Except.error "KeyError: File Name"
    | some v =>
      match readManifestRows header rest with
      | Except.error e => Except.error e
      | Except.ok vs => Except.ok (v :: vs)

/-- `_read_manifest`: read the "File Name" column of every row, in order. -/
def read_manifest (m : CSVFile) : Except String (List String) :=
  readManifestRows m.header m.rows

/-- Python `set(a) == set(b)`: mutual membership of the two lists. -/
def setEq (a b : List String) : Bool :=
  (a.all fun x => decide (x ∈ b)) && (b.all fun x => decide (x ∈ a))

/-- `_check_prefetch_against_manifest`: read the manifest (its `KeyError`
propagates) and compare the directory listing with the expected names as
sets. -/
def check_prefetch_against_manifest (dir : List String) (m : CSVFile) :
    Except String Bool := do
  let expected ← read_manifest m
  pure (setEq dir expected)

/-- `_check_prefetch_against_n_files`: compare the number of directory
entries with the expected count. -/
def check_prefetch_against_n_files (dir : List String) (n : Int) : Bool :=
  decide ((dir.length : Int) = n)

/-- The verification dispatch of `download_files` (lines 55-61 of
`fetch.py`): a supplied (truthy) manifest wins; otherwise a truthy
`n_files` (a Python `int` is truthy iff nonzero) triggers the count check;
otherwise the attempt is accepted unconditionally. -/
def verifyStep (manifest : Option CSVFile) (nFiles : Option Int)
    (dir : List String) : Except String Bool :=
  match manifest with
  | some m => check_prefetch_against_manifest dir m
  | none =>
    match nFiles with
    | some n =>
      if n = 0 then Except.ok true
      else Except.ok (check_prefetch_against_n_files dir n)
    | none => Except.ok true

/-- Outcome of the `while not all_files_downloaded` loop.  `timeout` means
the supplied fuel ran out while the loop was still running (the Python
loop has no bound of its own); `raised` is a propagating exception;
`done b k` is a normal exit having invoked the downloader `k` times,
where `b = false` is the early `return False` on retry exhaustion and
`b = true` means verification succeeded. -/
inductive LoopResult where
  | timeout : LoopResult
  | raised (msg : String) (invocations : Nat) : LoopResult
  | done (success : Bool) (invocations : Nat) : LoopResult
  deriving DecidableEq

/-- Number of downloader invocations recorded in a loop outcome. -/
def LoopResult.invocations : LoopResult → Nat
  | .timeout => 0
  | .raised _ k => k
  | .done _ k => k

/-- The retry loop of `download_files` (lines 47-62 of `fetch.py`), one
iteration per unit of fuel.  Each iteration runs the downloader, then
returns `False` if the attempt index `i` equals `n_retries`, then runs
verification (whose exception propagates), and otherwise repeats with
`i + 1`.  The attempt index is a Nat (it starts at 1 and only grows)
while `n_retries` is a Python int, so the guard compares via a cast. -/
def downloadLoop (verify : Nat → Except String Bool) (nRetries : Int)
    (i fuel : Nat) : LoopResult :=
  match fuel with
  | 0 => LoopResult.timeout
  | Nat.succ f =>
    if (i : Int) = nRetries then LoopResult.done false 1
    else
      match verify i with
      | Except.error e => LoopResult.raised e 1
      | Except.ok true => LoopResult.done true 1
      | Except.ok false =>
        match downloadLoop verify nRetries (i + 1) f with
        | LoopResult.timeout => LoopResult.timeout
        | LoopResult.raised e k => LoopResult.raised e (k + 1)
        | LoopResult.done b k => LoopResult.done b (k + 1)

/-- State of the temporary working directory: names of plain files, names
of subdirectories, and a record `(d, f)` for each archive `f` whose
contents were extracted into subdirectory `d`. -/
structure DirState where
  files : List String
  dirs : List String
  extracted : List (String × String)
  deriving DecidableEq

/-- `os.listdir`: file and subdirectory names. -/
def listdir (st : DirState) : List String :=
  st.files ++ st.dirs

/-- The filter of `_untar`: `f.endswith(".tar") or f.endswith(".tar.gz")`.
Suffix tests are done on the character lists so that they compute by
structural recursion. -/
def isTarName (f : String) : Bool :=
  List.isSuffixOf ".tar".data f.data || List.isSuffixOf ".tar.gz".data f.data

/-- The characters before the first occurrence of `.tar` (the whole list
when there is none). -/
def tarSplitHead : List Char → List Char
  | [] => []
  | c :: cs =>
    if (c :: cs).take 4 = ['.', 't', 'a', 'r'] then []
    else c :: tarSplitHead cs

/-- Python `f.split(".tar")[0]`: the part of the name before the first
occurrence of `.tar`. -/
def splitTar (f : String) : String :=
  String.mk (tarSplitHead f.data)

/-- An exception escaping `_untar`, together with the directory state at
the moment it was raised (the real directory keeps that state while the
exception propagates). -/
structure UntarErr where
  msg : String
  state : DirState
  deriving DecidableEq

/-- One iteration of the `_untar` loop for archive name `f`:
`os.mkdir` of the split name (raises `FileExistsError` when an entry of
that name exists), then the external `tar` call; a nonzero exit raises
`RuntimeError` before the archive is removed, a zero exit removes the
archive (`os.remove` raises when `f` is not a plain file). -/
def untarStep (tarExit : String → Int) (st : DirState) (f : String) :
    Except UntarErr DirState :=
  if splitTar f ∈ listdir st then
    Except.error ⟨"FileExistsError: " ++ splitTar f, st⟩
  else if tarExit f = 0 then
    if f ∈ st.files then
      Except.ok
        ⟨st.files.erase f, st.dirs ++ [splitTar f],
         st.extracted ++ [(splitTar f, f)]⟩
    else
      Except.error
        ⟨"IsADirectoryError: " ++ f,
         ⟨st.files, st.dirs ++ [splitTar f], st.extracted⟩⟩
  else
    Except.error
      ⟨"Failed to untar " ++ f,
       ⟨st.files, st.dirs ++ [splitTar f], st.extracted⟩⟩

/-- The `for f in tar_files` loop of `_untar`, over the snapshot list of
archive names. -/
def untarList (tarExit : String → Int) :
    List String → DirState → Except UntarErr DirState
  | [], st => Except.ok st
  | f :: fs, st =>
    match untarStep tarExit st f with
    | Except.error e => Except.error e
    | Except.ok st1 => untarList tarExit fs st1

/-- `_untar`: snapshot the archive names of the directory listing, then
process each in order. -/
def untarDir (tarExit : String → Int) (st : DirState) :
    Except UntarErr DirState :=
  untarList tarExit ((listdir st).filter isTarName) st

/-- Outcome of one `download_files` call.  `failed` is `return False`
(retry exhaustion), `succeeded` is `return True` carrying the directory
state that is then relocated to the output directory. -/
inductive RunResult where
  | timeout : RunResult
  | raised (msg : String) (invocations : Nat) : RunResult
  | failed (invocations : Nat) : RunResult
  | succeeded (finalDir : DirState) (invocations : Nat) : RunResult
  deriving DecidableEq

/-- `download_files` (lines 27-68 of `fetch.py`): run the retry loop with
the verification dispatch on the directory listing after each attempt;
on `return False` the untar step never runs; on loop success run `_untar`
when the flag is set (its exception propagates with no further downloader
invocation) and return `True` with the final directory state, which the
caller-visible step then relocates (see `copytree_move`). -/
def download_files (dirAfter : Nat → DirState) (manifest : Option CSVFile)
    (nFiles : Option Int) (nRetries : Int) (untarFlag : Bool)
    (tarExit : String → Int) (fuel : Nat) : RunResult :=
  match downloadLoop
      (fun i => verifyStep manifest nFiles (listdir (dirAfter i)))
      nRetries 1 fuel with
  | LoopResult.timeout => RunResult.timeout
  | LoopResult.raised e k => RunResult.raised e k
  | LoopResult.done false k => RunResult.failed k
  | LoopResult.done true k =>
    if untarFlag then
      match untarDir tarExit (dirAfter k) with
      | Except.error e => RunResult.raised e.msg k
      | Except.ok st => RunResult.succeeded st k
    else
      RunResult.succeeded (dirAfter k) k

/-- The fields of a `dbGaPFileFetcher`: the three paths fixed at
construction. -/
structure Fetcher where
  ngc_file : String
  prefetch : String
  output_dir : String
  deriving DecidableEq

/-- `_run_prefetch` (lines 79-97 of `fetch.py`): the shell command string
built for the downloader.  The `--output-directory` suffix is appended
when `self.output_dir` is truthy (a nonempty string). -/
def run_prefetch_cmd (cfg : Fetcher) (cart_file : String) : String :=
  let cmd := cfg.prefetch ++ " --ngc " ++ cfg.ngc_file ++
    " --order kart --cart " ++ cart_file ++ " --max-size 500000000"
  if cfg.output_dir = "" then cmd
  else cmd ++ " --output-directory " ++ cfg.output_dir

/-- The directory passed with the `--output-directory` flag, when any. -/
def outputDirectoryArg (cfg : Fetcher) : Option String :=
  if cfg.output_dir = "" then none else some cfg.output_dir

/-- A directory tree as the finite map from file paths (lists of path
segments) to file contents; directories are implicit. -/
abbrev FileMap := List (List String × String)

/-- The paths of the files of a tree. -/
def paths (fs : FileMap) : List (List String) :=
  fs.map Prod.fst

/-- Write content `c` at path `p`, overwriting an existing file there. -/
def setFile (d : FileMap) (p : List String) (c : String) : FileMap :=
  if p ∈ paths d then
    d.map fun e => if e.1 = p then (p, c) else e
  else
    d ++ [(p, c)]

/-- Models `shutil.copytree(temp_dir, output_dir, copy_function=shutil.move,
dirs_exist_ok=True)` (line 67 of `fetch.py`): the walk moves every file of
the source tree — it is written at its destination path (overwriting, and
merging with what the destination already holds) and removed from the
source.  The destination and source components of the walk are each a fold
over the source files. -/
def copytree_move (src dest : FileMap) : FileMap × FileMap :=
  (src.foldl (fun d e => setFile d e.1 e.2) dest,
   src.foldl (fun s e => s.eraseP fun x => decide (x.1 = e.1)) src)

/-! ### The retry loop -/

/-- Unfolding equation of `downloadLoop` for positive fuel. -/
lemma downloadLoop_succ_eq (verify : Nat → Except String Bool) (nRetries : Int)
    (i f : Nat) :
    downloadLoop verify nRetries i (f + 1) =
      if (i : Int) = nRetries then LoopResult.done false 1
      else
        match verify i with
        | Except.error e => LoopResult.raised e 1
        | Except.ok true => LoopResult.done true 1
        | Except.ok false =>
          match downloadLoop verify nRetries (i + 1) f with
          | LoopResult.timeout => LoopResult.timeout
          | LoopResult.raised e k => LoopResult.raised e (k + 1)
          | LoopResult.done b k => LoopResult.done b (k + 1) := rfl

/-- If verification reports false on every attempt before the final one,
the loop exits via the exhaustion guard after the invocation at the final
attempt, never consulting that last verification. -/
lemma downloadLoop_exhausts (verify : Nat → Except String Bool) (n : Nat) :
    ∀ fuel i, 1 ≤ i → i ≤ n → n + 1 - i ≤ fuel →
      (∀ k, i ≤ k → k < n → verify k = Except.ok false) →
      downloadLoop verify (n : Int) i fuel = LoopResult.done false (n + 1 - i) := by
  intro fuel
  induction fuel with
  | zero => intro i _ h2 h3 _; omega
  | succ f ih =>
    intro i h1 h2 h3 hver
    rcases eq_or_lt_of_le h2 with heq | hlt
    · subst heq
      rw [downloadLoop_succ_eq, if_pos rfl]
      have h : i + 1 - i = 1 := by omega
      rw [h]
    · have hg : ¬ ((i : Int) = (n : Int)) := by
        intro hc
        have : i = n := by exact_mod_cast hc
        omega
      have hv := hver i le_rfl hlt
      rw [downloadLoop_succ_eq, if_neg hg, hv,
        ih (i + 1) (by omega) (by omega) (by omega)
          (fun k hk1 hk2 => hver k (by omega) hk2)]
      have h : n + 1 - i = (n + 1 - (i + 1)) + 1 := by omega
      rw [h]

/-- If verification reports false before attempt `k`, true at attempt `k`,
and the exhaustion guard never fires up to `k`, the loop exits
successfully after exactly `k` invocations. -/
lemma downloadLoop_succeeds (verify : Nat → Except String Bool) (n : Int) (k : Nat)
    (hvk : verify k = Except.ok true) :
    ∀ fuel i, 1 ≤ i → i ≤ k → k + 1 - i ≤ fuel →
      (∀ j, i ≤ j → j ≤ k → ¬ ((j : Int) = n)) →
      (∀ j, i ≤ j → j < k → verify j = Except.ok false) →
      downloadLoop verify n i fuel = LoopResult.done true (k + 1 - i) := by
  intro fuel
  induction fuel with
  | zero => intro i _ h2 h3 _ _; omega
  | succ f ih =>
    intro i h1 h2 h3 hnr hfail
    have hg := hnr i le_rfl h2
    rcases eq_or_lt_of_le h2 with heq | hlt
    · subst heq
      rw [downloadLoop_succ_eq, if_neg hg, hvk]
      have h : i + 1 - i = 1 := by omega
      rw [h]
    · have hv := hfail i le_rfl hlt
      rw [downloadLoop_succ_eq, if_neg hg, hv,
        ih (i + 1) (by omega) (by omega) (by omega)
          (fun j hj1 hj2 => hnr j (by omega) hj2)
          (fun j hj1 hj2 => hfail j (by omega) hj2)]
      have h : k + 1 - i = (k + 1 - (i + 1)) + 1 := by omega
      rw [h]

/-- With a positive retry budget the loop always stops within the budget,
whatever verification does (including raising). -/
lemma downloadLoop_no_timeout (verify : Nat → Except String Bool) (n : Nat) :
    ∀ fuel i, 1 ≤ i → i ≤ n → n + 1 - i ≤ fuel →
      downloadLoop verify (n : Int) i fuel ≠ LoopResult.timeout ∧
      (downloadLoop verify (n : Int) i fuel).invocations ≤ n + 1 - i := by
  intro fuel
  induction fuel with
  | zero => intro i _ h2 h3; omega
  | succ f ih =>
    intro i h1 h2 h3
    by_cases hg : (i : Int) = (n : Int)
    · rw [downloadLoop_succ_eq, if_pos hg]
      refine ⟨by simp, ?_⟩
      show 1 ≤ n + 1 - i
      omega
    · have hlt : i < n := by
        have : i ≠ n := fun hc => hg (by exact_mod_cast hc)
        omega
      rw [downloadLoop_succ_eq, if_neg hg]
      cases hv : verify i with
      | error e =>
        refine ⟨by simp, ?_⟩
        show 1 ≤ n + 1 - i
        omega
      | ok b =>
        cases b with
        | true =>
          refine ⟨by simp, ?_⟩
          show 1 ≤ n + 1 - i
          omega
        | false =>
          obtain ⟨hnt, hinv⟩ := ih (i + 1) (by omega) (by omega) (by omega)
          cases hrec : downloadLoop verify (n : Int) (i + 1) f with
          | timeout => exact absurd hrec hnt
          | raised e k =>
            rw [hrec] at hinv
            refine ⟨by simp, ?_⟩
            show k + 1 ≤ n + 1 - i
            have : k ≤ n + 1 - (i + 1) := hinv
            omega
          | done b2 k =>
            rw [hrec] at hinv
            refine ⟨by simp, ?_⟩
            show k + 1 ≤ n + 1 - i
            have : k ≤ n + 1 - (i + 1) := hinv
            omega

/-- With `n_retries = 0` (a value less than 1) and verification always
false, the guard `i == n_retries` never fires and the loop never
terminates: it is still running after any amount of fuel. -/
lemma downloadLoop_zero_retries_timeout :
    ∀ fuel i, 1 ≤ i →
      downloadLoop (fun _ => Except.ok false) 0 i fuel = LoopResult.timeout := by
  intro fuel
  induction fuel with
  | zero => intro i _; rfl
  | succ f ih =>
    intro i h1
    have hg : ¬ ((i : Int) = (0 : Int)) := by
      intro hc
      have : i = 0 := by exact_mod_cast hc
      omega
    rw [downloadLoop_succ_eq, if_neg hg, ih (i + 1) (by omega)]

/-! ### Claims about the retry loop -/

/-- C1: for every `download_files` call with `max_retries = n` (at least
one attempt) where verification never succeeds on attempts `1..n-1`, the
downloader is invoked exactly `n` times and the call returns `False`.
The directory state after the final attempt is unconstrained here, so the
conclusion holds in particular when those contents would have passed
verification: the final attempt is never verified. -/
theorem claim_C1_exhaustion (dirAfter : Nat → DirState) (manifest : Option CSVFile)
    (nFiles : Option Int) (untarFlag : Bool) (tarExit : String → Int)
    (n fuel : Nat) (hn : 1 ≤ n) (hfuel : n ≤ fuel)
    (hver : ∀ k, 1 ≤ k → k < n →
      verifyStep manifest nFiles (listdir (dirAfter k)) = Except.ok false) :
    download_files dirAfter manifest nFiles (n : Int) untarFlag tarExit fuel
      = RunResult.failed n := by
  have hloop := downloadLoop_exhausts
    (fun i => verifyStep manifest nFiles (listdir (dirAfter i))) n fuel 1
    le_rfl hn (by omega) (fun k hk1 hk2 => hver k hk1 hk2)
  unfold download_files
  rw [hloop]
  have h : n + 1 - 1 = n := by omega
  rw [h]

/-- Witness for C1: two attempts, one expected file, the directory empty
after each attempt: the downloader runs twice and the call fails — even
though the (never verified) directory after attempt 2 is also empty and
would again have failed, the shape of the run is exhaustion. -/
theorem claim_C1_witness :
    download_files (fun _ => ⟨[], [], []⟩) none (some 1) ((2 : Nat) : Int) false
      (fun _ => 0) 5 = RunResult.failed 2 := by
  apply claim_C1_exhaustion
  · decide
  · decide
  · intro k hk1 hk2
    have h : k = 1 := by omega
    subst h
    rfl

/-- C3: for every `download_files` call with `max_retries = n > 1`, if
verification fails before attempt `k < n` and succeeds at attempt `k`,
the downloader is invoked exactly `k` times and the call returns `True`
(here with the untar flag off; a failing extraction is claim C7). -/
theorem claim_C3_success (dirAfter : Nat → DirState) (manifest : Option CSVFile)
    (nFiles : Option Int) (tarExit : String → Int) (n k fuel : Nat)
    (hn : 1 < n) (hk1 : 1 ≤ k) (hkn : k < n) (hfuel : k ≤ fuel)
    (hfail : ∀ j, 1 ≤ j → j < k →
      verifyStep manifest nFiles (listdir (dirAfter j)) = Except.ok false)
    (hsucc : verifyStep manifest nFiles (listdir (dirAfter k)) = Except.ok true) :
    download_files dirAfter manifest nFiles (n : Int) false tarExit fuel
      = RunResult.succeeded (dirAfter k) k := by
  have hloop := downloadLoop_succeeds
    (fun i => verifyStep manifest nFiles (listdir (dirAfter i))) (n : Int) k hsucc
    fuel 1 le_rfl hk1 (by omega)
    (fun j hj1 hj2 hc => by omega)
    (fun j hj1 hj2 => hfail j hj1 hj2)
  unfold download_files
  rw [hloop]
  have h : k + 1 - 1 = k := by omega
  rw [h]
  rfl

/-- Witness for C3: three retries allowed, one expected file; the
directory is empty after attempt 1 and holds one file after attempt 2:
two invocations and success. -/
theorem claim_C3_witness :
    download_files (fun i => if i = 1 then ⟨[], [], []⟩ else ⟨["f"], [], []⟩)
      none (some 1) ((3 : Nat) : Int) false (fun _ => 0) 9
      = RunResult.succeeded ⟨["f"], [], []⟩ 2 := by
  have h := claim_C3_success (fun i => if i = 1 then ⟨[], [], []⟩ else ⟨["f"], [], []⟩)
    none (some 1) (fun _ => 0) 3 2 9 (by decide) (by decide) (by decide) (by decide)
    (fun j hj1 hj2 => by
      have h1 : j = 1 := by omega
      subst h1
      rfl)
    (by rfl)
  exact h

/-- C9 counterexample: with `max_retries = 0` (a value less than 1) and a
verification that succeeds, the loop terminates only after 1 downloader
invocation, which is more than `max_retries`: the claimed bound of at
most `max_retries` invocations fails for values less than 1.  (Moreover,
with verification never succeeding the loop does not terminate at all:
`downloadLoop_zero_retries_timeout`.) -/
theorem claim_C9_counterexample :
    downloadLoop (fun _ => Except.ok true) 0 1 5 = LoopResult.done true 1 ∧
    ¬ ((downloadLoop (fun _ => Except.ok true) 0 1 5).invocations ≤ 0) :=
  ⟨rfl, by decide⟩

/-- C9 amended: for every `download_files` call with `max_retries = n ≥ 1`
the attempt loop iterates attempt indices starting at 1 and terminates
after at most `n` downloader invocations; for `max_retries` less than 1
the bound fails and the loop need not terminate. -/
theorem claim_C9_amended (verify : Nat → Except String Bool) (n fuel : Nat)
    (hn : 1 ≤ n) (hfuel : n ≤ fuel) :
    downloadLoop verify (n : Int) 1 fuel ≠ LoopResult.timeout ∧
    (downloadLoop verify (n : Int) 1 fuel).invocations ≤ n := by
  obtain ⟨h1, h2⟩ := downloadLoop_no_timeout verify n fuel 1 le_rfl hn (by omega)
  refine ⟨h1, ?_⟩
  have h : n + 1 - 1 = n := by omega
  rw [h] at h2
  exact h2

/-- Witness for C9 (amended): three retries, verification always false,
ample fuel: the loop stops, within three invocations. -/
theorem claim_C9_witness :
    downloadLoop (fun _ => Except.ok false) ((3 : Nat) : Int) 1 10 ≠ LoopResult.timeout ∧
    (downloadLoop (fun _ => Except.ok false) ((3 : Nat) : Int) 1 10).invocations ≤ 3 :=
  claim_C9_amended (fun _ => Except.ok false) 3 10 (by decide) (by decide)

/-- C10: with no manifest and `n_files = 0`, the count check is never
consulted (`0` is falsy), so every attempt is accepted unconditionally:
verification reports true for any directory contents, and with
`max_retries > 1` the call returns `True` after exactly one downloader
invocation. -/
theorem claim_C10_zero_count (dirAfter : Nat → DirState) (nRetries : Int)
    (tarExit : String → Int) (fuel : Nat) (hret : 1 < nRetries) (hfuel : 1 ≤ fuel) :
    (∀ dir : List String, verifyStep none (some 0) dir = Except.ok true) ∧
    download_files dirAfter none (some 0) nRetries false tarExit fuel
      = RunResult.succeeded (dirAfter 1) 1 := by
  refine ⟨fun dir => rfl, ?_⟩
  have hloop := downloadLoop_succeeds
    (fun i => verifyStep none (some 0) (listdir (dirAfter i))) nRetries 1 rfl
    fuel 1 le_rfl le_rfl (by omega)
    (fun j hj1 hj2 hc => by omega)
    (fun j hj1 hj2 => (by omega : False).elim)
  unfold download_files
  rw [hloop]
  rfl

/-- Witness for C10: a directory holding three files, `n_files = 0`,
three retries: the attempt is accepted unconditionally and the call
succeeds after one invocation. -/
theorem claim_C10_witness :
    verifyStep none (some 0) ["a", "b", "c"] = Except.ok true ∧
    download_files (fun _ => ⟨["a", "b", "c"], [], []⟩) none (some 0) 3 false
      (fun _ => 0) 5 = RunResult.succeeded ⟨["a", "b", "c"], [], []⟩ 1 := by
  obtain ⟨h1, h2⟩ := claim_C10_zero_count (fun _ => ⟨["a", "b", "c"], [], []⟩) 3
    (fun _ => 0) 5 (by decide) (by decide)
  exact ⟨h1 ["a", "b", "c"], h2⟩

/-! ### Verification strategies -/

/-- Python set equality of two lists holds exactly when they have the same
members; duplicates and ordering on either side are irrelevant. -/
lemma setEq_true_iff (a b : List String) :
    setEq a b = true ↔ (∀ f, f ∈ a ↔ f ∈ b) := by
  unfold setEq
  simp only [Bool.and_eq_true, List.all_eq_true, decide_eq_true_eq]
  constructor
  · rintro ⟨h1, h2⟩ f
    exact ⟨fun hf => h1 f hf, fun hf => h2 f hf⟩
  · intro h
    exact ⟨fun f hf => (h f).mp hf, fun f hf => (h f).mpr hf⟩

/-- C4: with a manifest whose "File Name" column reads as `expected`, a
download attempt verifies successfully iff the directory entries and the
expected names are the same as sets: every directory entry is expected and
every expected name is present — exact string matching, with duplicates
and ordering in either source irrelevant (only membership matters). -/
theorem claim_C4_manifest_verification (dir expected : List String) (m : CSVFile)
    (h : read_manifest m = Except.ok expected) :
    (check_prefetch_against_manifest dir m = Except.ok true ↔
      ∀ f, f ∈ dir ↔ f ∈ expected) := by
  unfold check_prefetch_against_manifest
  rw [h]
  show Except.ok (setEq dir expected) = Except.ok true ↔ _
  constructor
  · intro hok
    have hs : setEq dir expected = true := by injection hok
    exact (setEq_true_iff dir expected).mp hs
  · intro hmem
    rw [(setEq_true_iff dir expected).mpr hmem]

/-- Witness for C4: expected names a, b (in this order), directory b, a:
verification succeeds, and the membership characterization holds. -/
theorem claim_C4_witness :
    check_prefetch_against_manifest ["b", "a"] ⟨["File Name"], [["a"], ["b"]]⟩
      = Except.ok true :=
  (claim_C4_manifest_verification ["b", "a"] ["a", "b"]
      ⟨["File Name"], [["a"], ["b"]]⟩ rfl).mpr
    (by
      intro f
      simp only [List.mem_cons, List.not_mem_nil, or_false]
      tauto)

/-- C5: with no manifest and a positive expected count `n`, a download
attempt verifies successfully iff the directory holds exactly `n`
entries. -/
theorem claim_C5_count_verification (dir : List String) (n : Int) (hpos : 0 < n) :
    (verifyStep none (some n) dir = Except.ok true ↔ (dir.length : Int) = n) := by
  have hne : ¬ (n = 0) := by omega
  show (if n = 0 then Except.ok true
    else Except.ok (check_prefetch_against_n_files dir n)) = Except.ok true ↔ _
  rw [if_neg hne]
  unfold check_prefetch_against_n_files
  constructor
  · intro h
    have hb : decide ((dir.length : Int) = n) = true := by injection h
    exact of_decide_eq_true hb
  · intro h
    rw [decide_eq_true h]

/-- Witness for C5: expected count 2, directory with two entries. -/
theorem claim_C5_witness :
    verifyStep none (some 2) ["a", "b"] = Except.ok true ↔
      ((["a", "b"] : List String).length : Int) = 2 :=
  claim_C5_count_verification ["a", "b"] 2 (by decide)

/-- C6 counterexample: a manifest whose header lacks the "File Name"
column but which has no data rows raises nothing: the row loop never
runs, the expected set is empty, and with an empty directory the whole
`download_files` call even returns success after one attempt — the claim
that a missing column always raises out of `download_files` is false. -/
theorem claim_C6_counterexample :
    ("File Name" ∉ (CSVFile.mk ["Other Column"] []).header) ∧
    check_prefetch_against_manifest [] ⟨["Other Column"], []⟩ = Except.ok true ∧
    download_files (fun _ => ⟨[], [], []⟩) (some ⟨["Other Column"], []⟩) none 3
      false (fun _ => 0) 5 = RunResult.succeeded ⟨[], [], []⟩ 1 :=
  ⟨by decide, rfl, rfl⟩

/-- A manifest without the "File Name" column raises `KeyError` at its
first data row. -/
lemma read_manifest_missing_column (m : CSVFile)
    (hcol : "File Name" ∉ m.header) (hrows : m.rows ≠ []) :
    read_manifest m = Except.error "KeyError: File Name" := by
  obtain ⟨r, rs, hm⟩ := List.exists_cons_of_ne_nil hrows
  have hv : rowValue m.header r "File Name" = none := by
    unfold rowValue
    rw [if_neg hcol]
  unfold read_manifest
  rw [hm]
  show (match rowValue m.header r "File Name" with
    | none => Except.error "KeyError: File Name"
    | some v =>
      match readManifestRows m.header rs with
      | Except.error e => Except.error e
      | Except.ok vs => Except.ok (v :: vs)) = _
  rw [hv]

/-- C6 amended: if the supplied manifest lacks a column named exactly
"File Name" and has at least one data row, manifest verification raises
`KeyError`, which propagates out of `download_files` after the first
attempt — no retry is made and no fallback strategy (count or
unconditional) is consulted.  (With zero data rows nothing is raised and
the expected set is empty: `claim_C6_counterexample`.)  The guard
`1 ≠ n_retries` is needed because on the final attempt the code returns
`False` before verifying, so a single-retry call never reads the
manifest. -/
theorem claim_C6_amended (dirAfter : Nat → DirState) (m : CSVFile)
    (nFiles : Option Int) (untarFlag : Bool) (tarExit : String → Int)
    (nRetries : Int) (fuel : Nat)
    (hcol : "File Name" ∉ m.header) (hrows : m.rows ≠ [])
    (hret : ¬ (((1 : Nat) : Int) = nRetries)) (hfuel : 1 ≤ fuel) :
    download_files dirAfter (some m) nFiles nRetries untarFlag tarExit fuel
      = RunResult.raised "KeyError: File Name" 1 := by
  have hv : verifyStep (some m) nFiles (listdir (dirAfter 1))
      = Except.error "KeyError: File Name" := by
    show check_prefetch_against_manifest (listdir (dirAfter 1)) m = _
    unfold check_prefetch_against_manifest
    rw [read_manifest_missing_column m hcol hrows]
    rfl
  obtain ⟨f, rfl⟩ : ∃ f, fuel = f + 1 := ⟨fuel - 1, by omega⟩
  unfold download_files
  rw [downloadLoop_succ_eq, if_neg hret]
  simp only [hv]

/-- Witness for C6 (amended): header "Other Column", one data row, three
retries: the call raises after one downloader invocation. -/
theorem claim_C6_witness :
    download_files (fun _ => ⟨["x"], [], []⟩) (some ⟨["Other Column"], [["v"]]⟩)
      none 3 false (fun _ => 0) 5 = RunResult.raised "KeyError: File Name" 1 :=
  claim_C6_amended (fun _ => ⟨["x"], [], []⟩) ⟨["Other Column"], [["v"]]⟩
    none false (fun _ => 0) 3 5 (by decide) (by decide) (by decide) (by decide)

/-! ### The downloader command line -/

/-- C2 evaluation: the constructed command contains the fixed parameters —
credential file after `--ngc`, ordering mode `kart`, the request
descriptor after `--cart`, the fixed maximum size constant — but the
directory passed after `--output-directory` is the FINAL output directory
`self.output_dir`, not the temporary working directory the retry loop
verifies and later relocates: `fetch.py` line 93 formats
`self.output_dir` into the command. -/
theorem claim_C2_code_eval :
    run_prefetch_cmd ⟨"/keys/project.ngc", "/usr/bin/prefetch", "/data/out"⟩
        "/carts/cart.krt"
      = "/usr/bin/prefetch --ngc /keys/project.ngc --order kart --cart /carts/cart.krt --max-size 500000000 --output-directory /data/out" ∧
    outputDirectoryArg ⟨"/keys/project.ngc", "/usr/bin/prefetch", "/data/out"⟩
      = some "/data/out" :=
  ⟨rfl, rfl⟩

/-! ### Relocation -/

/-- Paths of a cons tree. -/
lemma paths_cons (e : List String × String) (fs : FileMap) :
    paths (e :: fs) = e.1 :: paths fs := rfl

/-- A path is among a tree's paths iff some entry carries it. -/
lemma mem_paths (fs : FileMap) (p : List String) :
    p ∈ paths fs ↔ ∃ e ∈ fs, e.1 = p := by
  unfold paths
  simp [List.mem_map]

/-- Writing a file puts it in the tree. -/
lemma mem_setFile_self (d : FileMap) (p : List String) (c : String) :
    (p, c) ∈ setFile d p c := by
  unfold setFile
  split
  · rename_i h
    obtain ⟨e, he, hep⟩ := (mem_paths d p).mp h
    exact List.mem_map.mpr ⟨e, he, by rw [if_pos hep]⟩
  · exact List.mem_append_right _ (by simp)

/-- Writing a file leaves entries at other paths untouched. -/
lemma mem_setFile_of_ne (d : FileMap) (p : List String) (c : String)
    (e : List String × String) (he : e ∈ d) (hne : e.1 ≠ p) :
    e ∈ setFile d p c := by
  unfold setFile
  split
  · refine List.mem_map.mpr ⟨e, he, ?_⟩
    rw [if_neg hne]
  · exact List.mem_append_left _ he

/-- Writing a file either keeps the paths (overwrite) or appends the new
path (fresh file). -/
lemma paths_setFile (d : FileMap) (p : List String) (c : String) :
    paths (setFile d p c) =
      if p ∈ paths d then paths d else paths d ++ [p] := by
  unfold setFile
  split
  · unfold paths
    rw [List.map_map]
    apply List.map_congr_left
    intro e _
    by_cases hep : e.1 = p
    · simp [hep]
    · simp [hep]
  · unfold paths
    simp

/-- Writing a file preserves path uniqueness. -/
lemma nodup_paths_setFile (d : FileMap) (p : List String) (c : String)
    (h : (paths d).Nodup) : (paths (setFile d p c)).Nodup := by
  rw [paths_setFile]
  split
  · exact h
  · rename_i hp
    simp [List.nodup_append, h, hp]

/-- An entry whose path no moved file carries survives the whole move
fold unchanged. -/
lemma mem_foldl_setFile_frozen :
    ∀ (src d : FileMap) (e : List String × String),
      e ∈ d → e.1 ∉ paths src →
      e ∈ src.foldl (fun acc x => setFile acc x.1 x.2) d := by
  intro src
  induction src with
  | nil => intro d e he _; simpa using he
  | cons x rest ih =>
    intro d e he hnp
    rw [paths_cons] at hnp
    simp only [List.mem_cons, not_or] at hnp
    obtain ⟨hne, hnp2⟩ := hnp
    simp only [List.foldl_cons]
    exact ih (setFile d x.1 x.2) e (mem_setFile_of_ne d x.1 x.2 e he hne) hnp2

/-- The move fold preserves path uniqueness of the destination. -/
lemma nodup_paths_foldl_setFile :
    ∀ (src d : FileMap), (paths d).Nodup →
      (paths (src.foldl (fun acc x => setFile acc x.1 x.2) d)).Nodup := by
  intro src
  induction src with
  | nil => intro d h; simpa using h
  | cons x rest ih =>
    intro d h
    simp only [List.foldl_cons]
    exact ih _ (nodup_paths_setFile d x.1 x.2 h)

/-- Every source file ends up in the destination of the move fold. -/
lemma mem_foldl_setFile_of_mem :
    ∀ (src d : FileMap), (paths src).Nodup →
      ∀ e ∈ src, e ∈ src.foldl (fun acc x => setFile acc x.1 x.2) d := by
  intro src
  induction src with
  | nil => intro d _ e he; simp at he
  | cons x rest ih =>
    intro d hnd e he
    rw [paths_cons] at hnd
    obtain ⟨hx, hrest⟩ := List.nodup_cons.mp hnd
    simp only [List.foldl_cons]
    rcases List.mem_cons.mp he with heq | hmem
    · subst heq
      exact mem_foldl_setFile_frozen rest (setFile d e.1 e.2) e
        (mem_setFile_self d e.1 e.2) hx
    · exact ih (setFile d x.1 x.2) hrest e hmem

/-- In a tree with unique paths, a path determines its content. -/
lemma eq_of_mem_of_nodup_paths :
    ∀ (fs : FileMap), (paths fs).Nodup →
      ∀ (p : List String) (c1 c2 : String),
        (p, c1) ∈ fs → (p, c2) ∈ fs → c1 = c2 := by
  intro fs
  induction fs with
  | nil => intro _ p c1 c2 h1 _; simp at h1
  | cons x rest ih =>
    intro hnd p c1 c2 h1 h2
    rw [paths_cons] at hnd
    obtain ⟨hx, hrest⟩ := List.nodup_cons.mp hnd
    rcases List.mem_cons.mp h1 with e1 | m1 <;> rcases List.mem_cons.mp h2 with e2 | m2
    · have h := e1.trans e2.symm
      injection h with h1 h2
    · exfalso
      apply hx
      rw [← e1]
      exact (mem_paths rest p).mpr ⟨(p, c2), m2, rfl⟩
    · exfalso
      apply hx
      rw [← e2]
      exact (mem_paths rest p).mpr ⟨(p, c1), m1, rfl⟩
    · exact ih hrest p c1 c2 m1 m2

/-- Moving every file out of a tree with unique paths leaves nothing. -/
lemma foldl_eraseP_self :
    ∀ (src : FileMap), (paths src).Nodup →
      src.foldl (fun s e => s.eraseP fun x => decide (x.1 = e.1)) src = [] := by
  intro src
  induction src with
  | nil => intro _; rfl
  | cons x rest ih =>
    intro hnd
    rw [paths_cons] at hnd
    obtain ⟨hx, hrest⟩ := List.nodup_cons.mp hnd
    simp only [List.foldl_cons]
    rw [List.eraseP_cons_of_pos (by simp)]
    exact ih hrest

/-- C8: the relocation of line 67 of `fetch.py` — `shutil.copytree` with
`copy_function=shutil.move` and `dirs_exist_ok=True` — is a move, not a
copy.  For source and destination trees with unique file paths (true of
any real directory tree): every source file exists afterwards in the
output tree with its content; nothing remains at the originating
location; destination files at non-conflicting paths survive the merge;
and at conflicting paths the moved source content is what the output
holds (existing destination files are overwritten). -/
theorem claim_C8_relocation_move (src dest : FileMap)
    (hsrc : (paths src).Nodup) (hdest : (paths dest).Nodup) :
    (∀ e ∈ src, e ∈ (copytree_move src dest).1) ∧
    (copytree_move src dest).2 = [] ∧
    (∀ e ∈ dest, e.1 ∉ paths src → e ∈ (copytree_move src dest).1) ∧
    (∀ e ∈ src, ∀ c, (e.1, c) ∈ (copytree_move src dest).1 → c = e.2) := by
  refine ⟨?_, ?_, ?_, ?_⟩
  · intro e he
    exact mem_foldl_setFile_of_mem src dest hsrc e he
  · exact foldl_eraseP_self src hsrc
  · intro e he hnp
    exact mem_foldl_setFile_frozen src dest e he hnp
  · intro e he c hc
    have hn := nodup_paths_foldl_setFile src dest hdest
    have h1 := mem_foldl_setFile_of_mem src dest hsrc e he
    exact eq_of_mem_of_nodup_paths _ hn e.1 c e.2 hc h1

/-- Witness for C8: moving `{f1 ↦ c1}` onto `{f1 ↦ old, g ↦ k}`: the
moved file is present with the source content, the source is emptied, the
non-conflicting destination file survives, and the overwritten content
`old` is gone. -/
theorem claim_C8_witness :
    ((["f1"], "c1") ∈
      (copytree_move [(["f1"], "c1")] [(["f1"], "old"), (["g"], "k")]).1) ∧
    (copytree_move [(["f1"], "c1")] [(["f1"], "old"), (["g"], "k")]).2 = [] ∧
    ((["g"], "k") ∈
      (copytree_move [(["f1"], "c1")] [(["f1"], "old"), (["g"], "k")]).1) ∧
    ((["f1"], "old") ∉
      (copytree_move [(["f1"], "c1")] [(["f1"], "old"), (["g"], "k")]).1) := by
  obtain ⟨h1, h2, h3, h4⟩ := claim_C8_relocation_move
    [(["f1"], "c1")] [(["f1"], "old"), (["g"], "k")] (by decide) (by decide)
  refine ⟨h1 _ (by simp), h2, h3 _ (by simp) (by decide), ?_⟩
  intro hc
  have h := h4 (["f1"], "c1") (by simp) "old" hc
  exact absurd h (by decide)

/-! ### Archive extraction -/

/-- Unfolding equation of `untarList` on a cons. -/
lemma untarList_cons (tarExit : String → Int) (f : String) (fs : List String)
    (st : DirState) :
    untarList tarExit (f :: fs) st =
      match untarStep tarExit st f with
      | Except.error e => Except.error e
      | Except.ok st1 => untarList tarExit fs st1 := rfl

/-- A step on a fresh split name, succeeding tool, and a plain file:
directory created, extraction recorded, archive removed. -/
lemma untarStep_ok (tarExit : String → Int) (st : DirState) (f : String)
    (hd : splitTar f ∉ listdir st) (hexit : tarExit f = 0) (hf : f ∈ st.files) :
    untarStep tarExit st f =
      Except.ok
        ⟨st.files.erase f, st.dirs ++ [splitTar f],
         st.extracted ++ [(splitTar f, f)]⟩ := by
  unfold untarStep
  rw [if_neg hd, if_pos hexit, if_pos hf]

/-- A step on a fresh split name whose tool call fails: the directory was
already created, the archive is kept, and the error names the archive. -/
lemma untarStep_fail (tarExit : String → Int) (st : DirState) (f : String)
    (hd : splitTar f ∉ listdir st) (hexit : tarExit f ≠ 0) :
    untarStep tarExit st f =
      Except.error
        ⟨"Failed to untar " ++ f,
         ⟨st.files, st.dirs ++ [splitTar f], st.extracted⟩⟩ := by
  unfold untarStep
  rw [if_neg hd, if_neg hexit]

/-- Processing a concatenation processes the first part, then the second
on the resulting state (errors short-circuit). -/
lemma untarList_append (tarExit : String → Int) :
    ∀ (as bs : List String) (st : DirState),
      untarList tarExit (as ++ bs) st =
        match untarList tarExit as st with
        | Except.error e => Except.error e
        | Except.ok st1 => untarList tarExit bs st1 := by
  intro as
  induction as with
  | nil => intro bs st; rfl
  | cons f rest ih =>
    intro bs st
    rw [show (f :: rest) ++ bs = f :: (rest ++ bs) from rfl, untarList_cons,
      untarList_cons]
    cases untarStep tarExit st f with
    | error e => rfl
    | ok st1 => exact ih bs st1

/-- Elements of the erase fold come from the starting list. -/
lemma mem_of_mem_foldl_erase :
    ∀ (ts l : List String) (x : String),
      x ∈ ts.foldl List.erase l → x ∈ l := by
  intro ts
  induction ts with
  | nil => intro l x h; simpa using h
  | cons t rest ih =>
    intro l x h
    simp only [List.foldl_cons] at h
    exact List.mem_of_mem_erase (ih (l.erase t) x h)

/-- An element not among the erased ones survives the erase fold. -/
lemma mem_foldl_erase_of_not_mem :
    ∀ (ts l : List String) (x : String),
      x ∈ l → x ∉ ts → x ∈ ts.foldl List.erase l := by
  intro ts
  induction ts with
  | nil => intro l x h _; simpa using h
  | cons t rest ih =>
    intro l x hx hnx
    simp only [List.mem_cons, not_or] at hnx
    simp only [List.foldl_cons]
    exact ih (l.erase t) x ((List.mem_erase_of_ne hnx.1).mpr hx) hnx.2

/-- On a duplicate-free list every erased element is gone after the fold. -/
lemma not_mem_foldl_erase :
    ∀ (ts l : List String), l.Nodup → ∀ x ∈ ts, x ∉ ts.foldl List.erase l := by
  intro ts
  induction ts with
  | nil => intro l _ x hx; simp at hx
  | cons t rest ih =>
    intro l hl x hx
    simp only [List.foldl_cons]
    rcases List.mem_cons.mp hx with heq | hmem
    · subst heq
      intro hc
      exact hl.not_mem_erase (mem_of_mem_foldl_erase rest (l.erase x) x hc)
    · exact ih (l.erase t) (hl.erase t) x hmem

/-- Full run of the `_untar` loop when every tool call succeeds, all
archives are plain files, and no name collisions arise: each archive is
erased from the files, its split-named directory is appended, and the
extraction is recorded, in order. -/
lemma untarList_ok (tarExit : String → Int) :
    ∀ (ts : List String) (st : DirState),
      ts.Nodup →
      (∀ f ∈ ts, tarExit f = 0) →
      (∀ f ∈ ts, f ∈ st.files) →
      st.files.Nodup →
      ((ts.map splitTar).Nodup) →
      (∀ f ∈ ts, splitTar f ∉ st.files ∧ splitTar f ∉ st.dirs) →
      untarList tarExit ts st =
        Except.ok
          ⟨ts.foldl List.erase st.files,
           st.dirs ++ ts.map splitTar,
           st.extracted ++ ts.map fun f => (splitTar f, f)⟩ := by
  intro ts
  induction ts with
  | nil =>
    intro st _ _ _ _ _ _
    simp [untarList]
  | cons f rest ih =>
    intro st hnd hexit hmem hfnd hsnd hcoll
    obtain ⟨hf_rest, hnd2⟩ := List.nodup_cons.mp hnd
    have hsnd2 : (splitTar f :: rest.map splitTar).Nodup := by
      simpa using hsnd
    obtain ⟨hsf_rest, hsnd3⟩ := List.nodup_cons.mp hsnd2
    have hcf := hcoll f (List.mem_cons_self f rest)
    have hd : splitTar f ∉ listdir st := by
      intro hc
      rcases List.mem_append.mp hc with h | h
      · exact hcf.1 h
      · exact hcf.2 h
    rw [untarList_cons,
      untarStep_ok tarExit st f hd (hexit f (List.mem_cons_self f rest))
        (hmem f (List.mem_cons_self f rest))]
    show untarList tarExit rest
        ⟨st.files.erase f, st.dirs ++ [splitTar f],
         st.extracted ++ [(splitTar f, f)]⟩ = _
    rw [ih ⟨st.files.erase f, st.dirs ++ [splitTar f],
        st.extracted ++ [(splitTar f, f)]⟩
      hnd2
      (fun g hg => hexit g (List.mem_cons_of_mem f hg))
      (fun g hg =>
        (List.mem_erase_of_ne (by
          intro hgf
          rw [hgf] at hg
          exact hf_rest hg)).mpr
          (hmem g (List.mem_cons_of_mem f hg)))
      (hfnd.erase f)
      hsnd3
      (fun g hg => by
        have hcg := hcoll g (List.mem_cons_of_mem f hg)
        refine ⟨fun hc => hcg.1 (List.mem_of_mem_erase hc), ?_⟩
        intro hc
        rcases List.mem_append.mp hc with h | h
        · exact hcg.2 h
        · have hgf : splitTar g = splitTar f := by simpa using h
          have hsm : splitTar g ∈ List.map splitTar rest :=
            List.mem_map_of_mem splitTar hg
          rw [hgf] at hsm
          exact hsf_rest hsm)]
    simp [List.append_assoc]

/-- C7 counterexample: the extraction directory is named by
`f.split(".tar")[0]` — the part before the FIRST `.tar` — not by
stripping the archive suffix.  For `my.tarball.tar` the suffix-stripped
base name is `my.tarball`, but the code creates a directory named `my`. -/
theorem claim_C7_counterexample :
    untarDir (fun _ => (0 : Int)) ⟨["my.tarball.tar"], [], []⟩
      = Except.ok ⟨[], ["my"], [("my", "my.tarball.tar")]⟩ ∧
    ("my.tarball" ∉ (["my"] : List String)) :=
  ⟨rfl, by decide⟩

/-- C7 amended: when `extract_archives` runs (after a verified download),
with archive names that are plain files and produce fresh, pairwise
distinct split names (the part before the first `.tar`, which for
ordinary names equals the suffix-stripped base name):
(1) if every tool call exits 0, then for every entry ending in `.tar` or
`.tar.gz` a new subdirectory named by its split name is created, the
archive contents are extracted into it and the archive file is deleted,
while no extraction directory is created for non-archive entries (the
resulting directory list is exactly the old one plus the split names) and
non-archive files are untouched;
(2) if the tool reports a nonzero exit for the first failing archive `f`,
a fatal error naming `f` is raised immediately and `f` is not deleted;
(3) such an error propagates out of `download_files` as a raise — the
retry loop neither retries it nor catches it, the downloader invocation
count stays at the count reached when the loop succeeded. -/
theorem claim_C7_amended (tarExit : String → Int) (st : DirState)
    (hnd : (listdir st).Nodup)
    (hdirs : ∀ d ∈ st.dirs, isTarName d = false)
    (hfresh : ∀ f ∈ (listdir st).filter isTarName, splitTar f ∉ listdir st)
    (hsplit : (((listdir st).filter isTarName).map splitTar).Nodup) :
    ((∀ f ∈ (listdir st).filter isTarName, tarExit f = 0) →
      ∃ stF, untarDir tarExit st = Except.ok stF ∧
        stF.dirs = st.dirs ++ ((listdir st).filter isTarName).map splitTar ∧
        (∀ f ∈ (listdir st).filter isTarName,
          splitTar f ∈ stF.dirs ∧ (splitTar f, f) ∈ stF.extracted ∧
            f ∉ stF.files) ∧
        (∀ g ∈ st.files, isTarName g = false → g ∈ stF.files)) ∧
    (∀ pre f post,
      (listdir st).filter isTarName = pre ++ f :: post →
      (∀ g ∈ pre, tarExit g = 0) → tarExit f ≠ 0 →
      ∃ stF, untarDir tarExit st
          = Except.error ⟨"Failed to untar " ++ f, stF⟩ ∧
        f ∈ stF.files) ∧
    (∀ (dirAfter : Nat → DirState) (manifest : Option CSVFile)
        (nFiles : Option Int) (nRetries : Int) (fuel k : Nat) (e : UntarErr),
      downloadLoop (fun i => verifyStep manifest nFiles (listdir (dirAfter i)))
          nRetries 1 fuel = LoopResult.done true k →
      untarDir tarExit (dirAfter k) = Except.error e →
      download_files dirAfter manifest nFiles nRetries true tarExit fuel
        = RunResult.raised e.msg k) := by
  have hnd2 : (st.files ++ st.dirs).Nodup := hnd
  have hfiles_nd : st.files.Nodup := (List.nodup_append.mp hnd2).1
  have htars_nd : ((listdir st).filter isTarName).Nodup := hnd.filter _
  have htars_files : ∀ f ∈ (listdir st).filter isTarName, f ∈ st.files := by
    intro f hf
    obtain ⟨hmem, htar⟩ := List.mem_filter.mp hf
    rcases List.mem_append.mp hmem with h | h
    · exact h
    · rw [hdirs f h] at htar
      cases htar
  have hcoll : ∀ f ∈ (listdir st).filter isTarName,
      splitTar f ∉ st.files ∧ splitTar f ∉ st.dirs := by
    intro f hf
    have h := hfresh f hf
    constructor
    · intro hc; exact h (List.mem_append_left _ hc)
    · intro hc; exact h (List.mem_append_right _ hc)
  refine ⟨?_, ?_, ?_⟩
  · intro hexit
    refine ⟨⟨((listdir st).filter isTarName).foldl List.erase st.files,
      st.dirs ++ ((listdir st).filter isTarName).map splitTar,
      st.extracted ++
        ((listdir st).filter isTarName).map fun f => (splitTar f, f)⟩,
      ?_, rfl, ?_, ?_⟩
    · show untarList tarExit ((listdir st).filter isTarName) st = _
      exact untarList_ok tarExit _ st htars_nd hexit htars_files hfiles_nd
        hsplit hcoll
    · intro f hf
      refine ⟨List.mem_append_right _ (List.mem_map_of_mem splitTar hf),
        List.mem_append_right _ (List.mem_map_of_mem _ hf), ?_⟩
      exact not_mem_foldl_erase _ st.files hfiles_nd f hf
    · intro g hg hgtar
      apply mem_foldl_erase_of_not_mem _ _ _ hg
      intro hc
      have h := (List.mem_filter.mp hc).2
      rw [hgtar] at h
      cases h
  · intro pre f post hts hpre hf
    have hf_tar : f ∈ (listdir st).filter isTarName := by
      rw [hts]
      exact List.mem_append_right _ (List.mem_cons_self f post)
    have htnd := htars_nd
    rw [hts] at htnd
    obtain ⟨hpre_nd, hrest_nd, hdisj⟩ := List.nodup_append.mp htnd
    have hf_pre : f ∉ pre := fun hc => hdisj hc (List.mem_cons_self f post)
    have hsnd := hsplit
    rw [hts, List.map_append] at hsnd
    obtain ⟨hsp_nd, hsr_nd, hsdisj⟩ := List.nodup_append.mp hsnd
    have hpre_sub : ∀ g ∈ pre, g ∈ (listdir st).filter isTarName := by
      intro g hg
      rw [hts]
      exact List.mem_append_left _ hg
    have hrun := untarList_ok tarExit pre st hpre_nd hpre
      (fun g hg => htars_files g (hpre_sub g hg))
      hfiles_nd hsp_nd (fun g hg => hcoll g (hpre_sub g hg))
    have hdf : splitTar f ∉
        listdir ⟨pre.foldl List.erase st.files, st.dirs ++ pre.map splitTar,
          st.extracted ++ pre.map fun g => (splitTar g, g)⟩ := by
      intro hc
      rcases List.mem_append.mp hc with h | h
      · exact (hcoll f hf_tar).1 (mem_of_mem_foldl_erase _ _ _ h)
      · rcases List.mem_append.mp h with h2 | h2
        · exact (hcoll f hf_tar).2 h2
        · exact hsdisj h2 (List.mem_map_of_mem splitTar (List.mem_cons_self f post))
    refine ⟨⟨pre.foldl List.erase st.files,
      (st.dirs ++ pre.map splitTar) ++ [splitTar f],
      st.extracted ++ pre.map fun g => (splitTar g, g)⟩, ?_, ?_⟩
    · show untarList tarExit ((listdir st).filter isTarName) st = _
      rw [hts, untarList_append, hrun]
      show untarList tarExit (f :: post)
          ⟨pre.foldl List.erase st.files, st.dirs ++ pre.map splitTar,
           st.extracted ++ pre.map fun g => (splitTar g, g)⟩ = _
      rw [untarList_cons, untarStep_fail tarExit _ f hdf hf]
    · exact mem_foldl_erase_of_not_mem pre st.files f (htars_files f hf_tar)
        hf_pre
  · intro dirAfter manifest nFiles nRetries fuel k e hloop huntar
    unfold download_files
    rw [hloop]
    show (match untarDir tarExit (dirAfter k) with
      | Except.error e2 => RunResult.raised e2.msg k
      | Except.ok st2 => RunResult.succeeded st2 k) = RunResult.raised e.msg k
    rw [huntar]

/-- Witness for C7 (amended): directory `a.tar`, `b.txt` with a
succeeding tool — directory `a` created, extraction recorded, archive
gone, `b.txt` untouched; directory `c.tar` with a failing tool — error
naming `c.tar`, archive kept; and the same failure propagating out of
`download_files` after one downloader invocation. -/
theorem claim_C7_witness :
    (∃ stF, untarDir (fun _ => (0 : Int)) ⟨["a.tar", "b.txt"], [], []⟩
        = Except.ok stF ∧
      "a" ∈ stF.dirs ∧ ("a", "a.tar") ∈ stF.extracted ∧
      "a.tar" ∉ stF.files ∧ "b.txt" ∈ stF.files) ∧
    (∃ stF, untarDir (fun _ => (1 : Int)) ⟨["c.tar"], [], []⟩
        = Except.error ⟨"Failed to untar c.tar", stF⟩ ∧ "c.tar" ∈ stF.files) ∧
    download_files (fun _ => ⟨["c.tar"], [], []⟩) none none 3 true
        (fun _ => (1 : Int)) 5 = RunResult.raised "Failed to untar c.tar" 1 := by
  refine ⟨?_, ?_, ?_⟩
  · obtain ⟨stF, hok, hdirs, hmem, hkeep⟩ :=
      (claim_C7_amended (fun _ => 0) ⟨["a.tar", "b.txt"], [], []⟩
        (by decide) (by decide) (by decide) (by decide)).1
        (fun f _ => rfl)
    obtain ⟨h1, h2, h3⟩ := hmem "a.tar" (by decide)
    exact ⟨stF, hok, h1, h2, h3, hkeep "b.txt" (by decide) (by decide)⟩
  · obtain ⟨stF, herr, hmem⟩ :=
      (claim_C7_amended (fun _ => 1) ⟨["c.tar"], [], []⟩
        (by decide) (by decide) (by decide) (by decide)).2.1
        [] "c.tar" [] (by decide) (fun g hg => absurd hg (List.not_mem_nil g))
        (by decide)
    exact ⟨stF, herr, hmem⟩
  · exact (claim_C7_amended (fun _ => 1) ⟨["c.tar"], [], []⟩
        (by decide) (by decide) (by decide) (by decide)).2.2
      (fun _ => ⟨["c.tar"], [], []⟩) none none 3 5 1
      ⟨"Failed to untar c.tar", ⟨["c.tar"], ["c"], []⟩⟩ rfl rfl
